import Mathlib

/- Formal model of the mini_database storage layer (src/main.c):
   fixed-width row codec, pager with a page cache, table insert/select,
   and database open/close persistence.

   Modelling conventions:
   - machine integers (uint32_t) are Nat; byte buffers are List Nat;
   - the contents malloc gives a fresh buffer are unspecified in C, so the
     pager carries a `junks` parameter: `junks n` is the contents of the
     n-th allocated page buffer (`nalloc` counts allocations so far);
   - fatal `exit(EXIT_FAILURE)` paths are modelled as `none`;
   - the file is a byte list; during a session it changes only at close. -/

def COLUMN_USERNAME_SIZE : Nat := 32

def COLUMN_EMAIL_SIZE : Nat := 255

def TABLE_MAX_PAGES : Nat := 100

/- struct Row: uint32_t id; char username[33]; char email[256].
   The two string fields are modelled as the full fixed-width byte arrays. -/
structure Row where
  id : Nat
  username : List Nat
  email : List Nat
  deriving DecidableEq, Repr

def ID_SIZE : Nat := 4

def USERNAME_SIZE : Nat := COLUMN_USERNAME_SIZE + 1

def EMAIL_SIZE : Nat := COLUMN_EMAIL_SIZE + 1

def ID_OFFSET : Nat := 0

def USERNAME_OFFSET : Nat := ID_OFFSET + ID_SIZE

def EMAIL_OFFSET : Nat := USERNAME_OFFSET + USERNAME_SIZE

def ROW_SIZE : Nat := ID_SIZE + USERNAME_SIZE + EMAIL_SIZE

def PAGE_SIZE : Nat := 4096

def ROWS_PER_PAGE : Nat := PAGE_SIZE / ROW_SIZE

def TABLE_MAX_ROWS : Nat := ROWS_PER_PAGE * TABLE_MAX_PAGES

/- The C type invariant of struct Row: id is a uint32_t value and the two
   char arrays have their fixed widths (33 and 256 bytes). -/
def wfRow (r : Row) : Prop :=
  r.id < 4294967296 ∧ r.username.length = USERNAME_SIZE ∧ r.email.length = EMAIL_SIZE

instance : DecidablePred wfRow := fun r => by
  unfold wfRow; infer_instance

/- Little-endian byte decomposition used to model `memcpy(dest, &id, 4)`. -/
def toBytesLE : Nat → Nat → List Nat
  | 0, _ => []
  | w + 1, v => v % 256 :: toBytesLE w (v / 256)

def fromBytesLE : List Nat → Nat
  | [] => 0
  | b :: bs => b + 256 * fromBytesLE bs

/- serializeRow (src/main.c:283-288): id at offset 0, username at offset 4,
   email at offset 37, by memcpy of the raw fixed-width fields. -/
def serializeRow (r : Row) : List Nat :=
  toBytesLE ID_SIZE r.id ++ r.username ++ r.email

/- deserializeRow (src/main.c:290-295): read the same fixed-width fields at
   the same fixed offsets from the start of the slot. -/
def deserializeRow (src : List Nat) : Row :=
  { id := fromBytesLE ((src.drop ID_OFFSET).take ID_SIZE)
    username := (src.drop USERNAME_OFFSET).take USERNAME_SIZE
    email := (src.drop EMAIL_OFFSET).take EMAIL_SIZE }

/- rowSlot's address arithmetic (src/main.c:274-281):
   page number and byte offset within the page of a row index. -/
def rowAddress (rowNum : Nat) : Nat × Nat :=
  (rowNum / ROWS_PER_PAGE, rowNum % ROWS_PER_PAGE * ROW_SIZE)

/- The out-of-bounds test of getPage (src/main.c:147): the fatal branch is
   taken exactly when pageNum > TABLE_MAX_PAGES. -/
def getPageFatal (pageNum : Nat) : Bool :=
  decide (pageNum > TABLE_MAX_PAGES)

/- memcpy of `bytes` into a buffer at byte offset `off`
   (the write the Row Store performs through the rowSlot pointer). -/
def writeBytes (pg : List Nat) (off : Nat) (bytes : List Nat) : List Nat :=
  pg.take off ++ bytes ++ pg.drop (off + bytes.length)

/- A positioned write(2) at byte offset `off` of a file. POSIX zero-fills a
   hole if the offset is beyond the current end of file. -/
def fileWrite (f : List Nat) (off : Nat) (d : List Nat) : List Nat :=
  f.take off ++ List.replicate (off - f.length) 0 ++ d ++ f.drop (off + d.length)

/- Page count of the file as computed in getPage (src/main.c:158-164):
   fLen / PAGE_SIZE, plus one if there is a trailing partial page. -/
def numPagesOfFile (fLen : Nat) : Nat :=
  fLen / PAGE_SIZE + (if fLen % PAGE_SIZE = 0 then 0 else 1)

/- The buffer produced by a cache miss in getPage (src/main.c:154-176):
   malloc a PAGE_SIZE buffer (contents `junk`, unspecified in C), and if the
   page is within the file extent, read up to PAGE_SIZE bytes over its start;
   a short read at end of file leaves the tail of the buffer untouched. -/
def getPageLoad (file : List Nat) (pageNum : Nat) (junk : List Nat) : List Nat :=
  if pageNum ≤ numPagesOfFile file.length then
    let readBytes := (file.drop (pageNum * PAGE_SIZE)).take PAGE_SIZE
    readBytes ++ junk.drop readBytes.length
  else
    junk

/- struct Pager (src/main.c:69-74). `file` is the fd's current contents
   (its length is the fLen recorded at open: the file is only written at
   close). `pages` is the TABLE_MAX_PAGES-slot cache, None = non-resident.
   `junks`/`nalloc` model malloc: the n-th allocation has contents `junks n`. -/
structure Pager where
  file : List Nat
  pages : List (Option (List Nat))
  junks : Nat → List Nat
  nalloc : Nat

/- struct Table (src/main.c:76-80). -/
structure Table where
  numRows : Nat
  pager : Pager

/- getPage (src/main.c:145-179). `none` is the fatal out-of-bounds exit;
   note the source's test is `pageNum > TABLE_MAX_PAGES`, so pageNum =
   TABLE_MAX_PAGES passes the test (and in C then indexes pages[100] out of
   bounds; the model's getD is benign there). On a cache miss the loaded
   buffer is cached and returned. -/
def getPage (pager : Pager) (pageNum : Nat) : Option (List Nat × Pager) :=
  if getPageFatal pageNum then
    none
  else
    match pager.pages.getD pageNum none with
    | some page => some (page, pager)
    | none =>
      let junk := pager.junks pager.nalloc
      let page := getPageLoad pager.file pageNum junk
      some (page,
        { pager with
            pages := pager.pages.set pageNum (some page)
            nalloc := pager.nalloc + 1 })

/- openDatabase (src/main.c:208-218) together with openPager
   (src/main.c:120-143): all slots non-resident, row count =
   file length / ROW_SIZE. -/
def openDatabase (file : List Nat) (junks : Nat → List Nat) : Table :=
  { numRows := file.length / ROW_SIZE
    pager :=
      { file := file
        pages := List.replicate TABLE_MAX_PAGES none
        junks := junks
        nalloc := 0 } }

/- rowSlot (src/main.c:274-281) followed by deserializeRow on the returned
   pointer, as executeSelectStatement does for each row index. -/
def rowSlotRead (pager : Pager) (rowNum : Nat) : Option (Row × Pager) :=
  match getPage pager (rowNum / ROWS_PER_PAGE) with
  | none => none
  | some (page, pager1) =>
      some (deserializeRow (page.drop (rowNum % ROWS_PER_PAGE * ROW_SIZE)), pager1)

/- rowSlot followed by serializeRow into the returned pointer, as
   executeInsertStatement does; the write lands in the cached buffer. -/
def rowSlotWrite (pager : Pager) (rowNum : Nat) (bytes : List Nat) : Option Pager :=
  match getPage pager (rowNum / ROWS_PER_PAGE) with
  | none => none
  | some (page, pager1) =>
      some { pager1 with
               pages := pager1.pages.set (rowNum / ROWS_PER_PAGE)
                 (some (writeBytes page (rowNum % ROWS_PER_PAGE * ROW_SIZE) bytes)) }

inductive ExecuteResult where
  | EXECUTE_SUCCESS
  | EXECUTE_TABLE_FULL
  deriving DecidableEq, Repr

/- executeInsertStatement (src/main.c:397-407). `none` is a fatal exit
   inside getPage (never reachable, see the in-bounds theorems). -/
def executeInsertStatement (r : Row) (t : Table) : Option (ExecuteResult × Table) :=
  if t.numRows ≥ TABLE_MAX_ROWS then
    some (ExecuteResult.EXECUTE_TABLE_FULL, t)
  else
    match rowSlotWrite t.pager t.numRows (serializeRow r) with
    | none => none
    | some pager1 => some (ExecuteResult.EXECUTE_SUCCESS, { numRows := t.numRows + 1, pager := pager1 })

/- The loop of executeSelectStatement (src/main.c:409-418): deserialize and
   print rows i, i+1, ..., i+n-1; the returned list is what gets printed. -/
def readRows (pager : Pager) (i : Nat) : Nat → Option (List Row × Pager)
  | 0 => some ([], pager)
  | n + 1 =>
    match rowSlotRead pager i with
    | none => none
    | some (r, pager1) =>
      match readRows pager1 (i + 1) n with
      | none => none
      | some (rs, pager2) => some (r :: rs, pager2)

/- executeSelectStatement (src/main.c:409-418): scan rows 0..numRows-1 in
   order; always returns EXECUTE_SUCCESS when it does not exit fatally. -/
def executeSelectStatement (t : Table) : Option (ExecuteResult × List Row × Table) :=
  match readRows t.pager 0 t.numRows with
  | none => none
  | some (rs, pager1) => some (ExecuteResult.EXECUTE_SUCCESS, rs, { t with pager := pager1 })

/- A sequence of inserts (one executeInsertStatement per row); succeeds with
   the final table only if every single insert returns EXECUTE_SUCCESS. -/
def insertAll (t : Table) : List Row → Option Table
  | [] => some t
  | r :: rs =>
    match executeInsertStatement r t with
    | some (ExecuteResult.EXECUTE_SUCCESS, t1) => insertAll t1 rs
    | _ => none

/- The flush loop of closeDatabase (src/main.c:228-237) applied to the
   file: flush pages 0..n-1, skipping non-resident slots, each as a full
   PAGE_SIZE write at its page offset (flushPager, src/main.c:181-202). -/
def flushFullPages (pages : List (Option (List Nat))) (file : List Nat) : Nat → List Nat
  | 0 => file
  | n + 1 =>
    let f := flushFullPages pages file n
    match pages.getD n none with
    | none => f
    | some pg => fileWrite f (n * PAGE_SIZE) (pg.take PAGE_SIZE)

/- closeDatabase (src/main.c:223-272) as a function from the table to the
   final file contents: flush the numRows / ROWS_PER_PAGE full pages, then,
   if numRows % ROWS_PER_PAGE > 0 and the trailing partial page is resident,
   flush exactly (numRows % ROWS_PER_PAGE) * ROW_SIZE bytes of it. The
   subsequent frees and the close(fd) do not touch the file contents. -/
def closeDatabase (t : Table) : List Nat :=
  let numFullPages := t.numRows / ROWS_PER_PAGE
  let f1 := flushFullPages t.pager.pages t.pager.file numFullPages
  let numAdditionalRows := t.numRows % ROWS_PER_PAGE
  if numAdditionalRows > 0 then
    match t.pager.pages.getD numFullPages none with
    | some pg => fileWrite f1 (numFullPages * PAGE_SIZE) (pg.take (numAdditionalRows * ROW_SIZE))
    | none => f1
  else
    f1

instance : Inhabited Row := ⟨⟨0, [], []⟩⟩

def wfRows (rs : List Row) : Prop := ∀ r ∈ rs, wfRow r

instance : DecidablePred wfRows := fun rs => by
  unfold wfRows; infer_instance

/- Every malloc'd page buffer has PAGE_SIZE bytes. -/
def wfJunks (junks : Nat → List Nat) : Prop := ∀ n, (junks n).length = PAGE_SIZE

/- The sequence of serializeRow writes that executeInsertStatement performs
   into one page buffer, at consecutive slots starting at slot j. -/
def writeRows (pg : List Nat) (j : Nat) : List Row → List Nat
  | [] => pg
  | r :: rs => writeRows (writeBytes pg (j * ROW_SIZE) (serializeRow r)) (j + 1) rs

/- The rows that live on page p: row indices 13p .. 13p+12 of the insert
   sequence. -/
def pageRows (rs : List Row) (p : Nat) : List Row :=
  (rs.drop (ROWS_PER_PAGE * p)).take ROWS_PER_PAGE

/- The in-memory buffer of page p after inserting the sequence rs into a
   store opened on an empty file: the rows of the page written in slot
   order over the malloc contents of the page's allocation. -/
def sessionPage (junks : Nat → List Nat) (rs : List Row) (p : Nat) : List Nat :=
  writeRows (junks p) 0 (pageRows rs p)

/- The page-cache state after inserting rs into a store opened on an empty
   file: page p is resident iff some row index in [13p, 13p+13) exists. -/
def sessionPages (junks : Nat → List Nat) (rs : List Row) : List (Option (List Nat)) :=
  (List.range TABLE_MAX_PAGES).map
    (fun p => if ROWS_PER_PAGE * p < rs.length then some (sessionPage junks rs p) else none)

/- The full table state after inserting rs into a store opened on an empty
   file; allocations happened in page order, one per resident page. -/
def sessionTable (junks : Nat → List Nat) (rs : List Row) : Table :=
  { numRows := rs.length
    pager :=
      { file := []
        pages := sessionPages junks rs
        junks := junks
        nalloc := (rs.length + (ROWS_PER_PAGE - 1)) / ROWS_PER_PAGE } }

/- Feeding one more insert into the result of a previous insert sequence. -/
def insertStep (r : Row) : Option Table → Option Table
  | none => none
  | some t =>
    match executeInsertStatement r t with
    | some (ExecuteResult.EXECUTE_SUCCESS, t1) => some t1
    | _ => none

/- The file contents produced by closeDatabase from a session state: the
   full pages concatenated, then the first numRows % ROWS_PER_PAGE row
   slots of the trailing page. -/
def sessionFile (junks : Nat → List Nat) (rs : List Row) : List Nat :=
  ((List.range (rs.length / ROWS_PER_PAGE)).map (sessionPage junks rs)).flatten ++
    (sessionPage junks rs (rs.length / ROWS_PER_PAGE)).take
      (rs.length % ROWS_PER_PAGE * ROW_SIZE)

/- The frame specification of one successful insert into table t whose
   target page buffer is pg: the insert succeeds; it bumps numRows by one;
   it leaves every other page slot untouched; the target page becomes pg
   with exactly the ROW_SIZE bytes at the target slot overwritten; all
   bytes of the target page outside that slot keep their old values; and
   every previously inserted row index still scans to the same row value. -/
def insertFrame (t : Table) (r : Row) (pg : List Nat) : Prop :=
  executeInsertStatement r t =
    some (ExecuteResult.EXECUTE_SUCCESS,
      { numRows := t.numRows + 1
        pager := { t.pager with
          pages := t.pager.pages.set (t.numRows / ROWS_PER_PAGE)
            (some (writeBytes pg (t.numRows % ROWS_PER_PAGE * ROW_SIZE) (serializeRow r))) } }) ∧
  (∀ q, q ≠ t.numRows / ROWS_PER_PAGE →
    (t.pager.pages.set (t.numRows / ROWS_PER_PAGE)
      (some (writeBytes pg (t.numRows % ROWS_PER_PAGE * ROW_SIZE) (serializeRow r)))).getD q none =
      t.pager.pages.getD q none) ∧
  (∀ b, b < t.numRows % ROWS_PER_PAGE * ROW_SIZE ∨
      t.numRows % ROWS_PER_PAGE * ROW_SIZE + ROW_SIZE ≤ b →
    (writeBytes pg (t.numRows % ROWS_PER_PAGE * ROW_SIZE) (serializeRow r)).getD b 0 =
      pg.getD b 0) ∧
  (∀ i, i < t.numRows →
    (rowSlotRead { t.pager with
      pages := t.pager.pages.set (t.numRows / ROWS_PER_PAGE)
        (some (writeBytes pg (t.numRows % ROWS_PER_PAGE * ROW_SIZE) (serializeRow r))) } i).map
        Prod.fst =
      (rowSlotRead t.pager i).map Prod.fst)

/- Concrete inputs used to instantiate the general theorems. -/
def mkRow (i : Nat) : Row :=
  { id := i
    username := List.replicate USERNAME_SIZE 0
    email := List.replicate EMAIL_SIZE 0 }

def mkRows (n : Nat) : List Row := (List.range n).map mkRow

def zeroJunks : Nat → List Nat := fun _ => List.replicate PAGE_SIZE 0

def onesJunks : Nat → List Nat := fun _ => List.replicate PAGE_SIZE 1

def pagerEmptyZero : Pager :=
  { file := []
    pages := List.replicate TABLE_MAX_PAGES none
    junks := zeroJunks
    nalloc := 0 }

def pagerEmptyOnes : Pager :=
  { file := []
    pages := List.replicate TABLE_MAX_PAGES none
    junks := onesJunks
    nalloc := 0 }

/- A one-row table whose page 0 is resident and all zeros. -/
def frameTable : Table :=
  { numRows := 1
    pager :=
      { file := []
        pages := (List.replicate TABLE_MAX_PAGES none).set 0
          (some (List.replicate PAGE_SIZE 0))
        junks := zeroJunks
        nalloc := 1 } }

theorem row_size_eq : ROW_SIZE = 293 := rfl

theorem rows_per_page_eq : ROWS_PER_PAGE = 13 := rfl

theorem table_max_rows_eq : TABLE_MAX_ROWS = 1300 := rfl

theorem page_size_eq : PAGE_SIZE = 4096 := rfl

theorem toBytesLE_length (w v : Nat) : (toBytesLE w v).length = w := by
  induction w generalizing v with
  | zero => rfl
  | succ w ih => simp [toBytesLE, ih]

theorem fromBytesLE_toBytesLE (v : Nat) (h : v < 4294967296) :
    fromBytesLE (toBytesLE 4 v) = v := by
  simp only [toBytesLE, fromBytesLE]
  omega

theorem serializeRow_length (r : Row) (h : wfRow r) :
    (serializeRow r).length = ROW_SIZE := by
  obtain ⟨h1, h2, h3⟩ := h
  simp only [serializeRow, List.length_append, toBytesLE_length, h2, h3, ROW_SIZE, ID_SIZE]

/- deserializeRow only inspects the first ROW_SIZE bytes of its input. -/
theorem deserializeRow_take (src : List Nat) :
    deserializeRow (src.take ROW_SIZE) = deserializeRow src := by
  simp only [deserializeRow, List.take_drop, List.take_take, ROW_SIZE, ID_OFFSET,
    USERNAME_OFFSET, EMAIL_OFFSET, ID_SIZE, USERNAME_SIZE, EMAIL_SIZE,
    COLUMN_USERNAME_SIZE, COLUMN_EMAIL_SIZE]
  norm_num

theorem deserializeRow_serializeRow (r : Row) (h : wfRow r) :
    deserializeRow (serializeRow r) = r := by
  obtain ⟨h1, h2, h3⟩ := h
  simp only [USERNAME_SIZE, EMAIL_SIZE, COLUMN_USERNAME_SIZE, COLUMN_EMAIL_SIZE] at h2 h3
  obtain ⟨id, username, email⟩ := r
  simp only at h1 h2 h3
  have hid : (toBytesLE 4 id).length = 4 := toBytesLE_length 4 id
  have e1 : (toBytesLE 4 id).take 4 = toBytesLE 4 id := List.take_of_length_le (by omega)
  have e2 : (toBytesLE 4 id).drop 4 = [] := List.drop_eq_nil_of_le (by omega)
  have e3 : (toBytesLE 4 id).drop 37 = [] := List.drop_eq_nil_of_le (by omega)
  have e4 : username.take 33 = username := List.take_of_length_le (by omega)
  have e5 : username.drop 33 = [] := List.drop_eq_nil_of_le (by omega)
  have e6 : email.take 256 = email := List.take_of_length_le (by omega)
  simp [serializeRow, deserializeRow, ID_OFFSET, USERNAME_OFFSET, EMAIL_OFFSET,
    ID_SIZE, USERNAME_SIZE, EMAIL_SIZE, COLUMN_USERNAME_SIZE, COLUMN_EMAIL_SIZE,
    List.take_append_eq_append_take, List.drop_append_eq_append_drop,
    List.length_append, hid, h2, h3, e1, e2, e3, e4, e5, e6,
    fromBytesLE_toBytesLE id h1]

theorem take_drop_getElem {α : Type} (l : List α) (o k i : Nat) :
    ((l.drop o).take k)[i]? = if i < k then l[o + i]? else none := by
  by_cases h : i < k
  · rw [List.getElem?_take_of_lt h, List.getElem?_drop, if_pos h]
  · rw [if_neg h]
    apply List.getElem?_eq_none
    have := List.length_take k (l.drop o)
    omega

theorem writeBytes_length (pg bytes : List Nat) (off : Nat)
    (hb : off + bytes.length ≤ pg.length) :
    (writeBytes pg off bytes).length = pg.length := by
  simp only [writeBytes, List.length_append, List.length_take, List.length_drop]
  omega

theorem writeBytes_getElem (pg bytes : List Nat) (off i : Nat)
    (hb : off + bytes.length ≤ pg.length) :
    (writeBytes pg off bytes)[i]? =
      if i < off then pg[i]?
      else if i < off + bytes.length then bytes[i - off]?
      else pg[i]? := by
  have hto : (pg.take off).length = off := by
    rw [List.length_take]; omega
  have hab : (pg.take off ++ bytes).length = off + bytes.length := by
    rw [List.length_append, hto]
  rw [writeBytes, List.getElem?_append, List.getElem?_append, hto, hab]
  split_ifs with h1 h2 h2
  · exact List.getElem?_take_of_lt h2
  · rfl
  · exfalso; omega
  · rw [List.getElem?_drop]
    congr 1
    omega

/- A write leaves any byte range disjoint from [off, off + |bytes|) unchanged. -/
theorem writeBytes_seg_untouched (pg bytes : List Nat) (off o k : Nat)
    (hb : off + bytes.length ≤ pg.length)
    (h : o + k ≤ off ∨ off + bytes.length ≤ o) :
    ((writeBytes pg off bytes).drop o).take k = (pg.drop o).take k := by
  apply List.ext_getElem?
  intro i
  rw [take_drop_getElem, take_drop_getElem]
  by_cases hik : i < k
  · rw [if_pos hik, if_pos hik, writeBytes_getElem pg bytes off (o + i) hb]
    rcases h with h | h
    · rw [if_pos (by omega)]
    · rw [if_neg (by omega), if_neg (by omega)]
  · rw [if_neg hik, if_neg hik]

/- Reading back the range just written yields the written bytes. -/
theorem writeBytes_seg_eq (pg bytes : List Nat) (off : Nat)
    (hb : off + bytes.length ≤ pg.length) :
    ((writeBytes pg off bytes).drop off).take bytes.length = bytes := by
  apply List.ext_getElem?
  intro i
  rw [take_drop_getElem]
  by_cases hik : i < bytes.length
  · rw [if_pos hik, writeBytes_getElem pg bytes off (off + i) hb,
      if_neg (by omega), if_pos (by omega)]
    congr 1
    omega
  · rw [if_neg hik, Eq.comm]
    exact List.getElem?_eq_none (by omega)

/- A write leaves everything from byte `o` on unchanged when the written
   range ends at or before `o`. -/
theorem writeBytes_drop_ge (pg bytes : List Nat) (off o : Nat)
    (hb : off + bytes.length ≤ pg.length) (ho : off + bytes.length ≤ o) :
    (writeBytes pg off bytes).drop o = pg.drop o := by
  apply List.ext_getElem?
  intro i
  rw [List.getElem?_drop, List.getElem?_drop, writeBytes_getElem pg bytes off (o + i) hb,
    if_neg (by omega), if_neg (by omega)]

theorem writeRows_length (rows : List Row) (pg : List Nat) (j : Nat)
    (hpg : pg.length = PAGE_SIZE) (hwf : ∀ r ∈ rows, wfRow r)
    (hj : j + rows.length ≤ ROWS_PER_PAGE) :
    (writeRows pg j rows).length = PAGE_SIZE := by
  induction rows generalizing pg j with
  | nil => exact hpg
  | cons r rs ih =>
    simp only [writeRows]
    have hr : wfRow r := hwf r (by simp)
    have hsl : (serializeRow r).length = ROW_SIZE := serializeRow_length r hr
    have hj' : j + rs.length + 1 ≤ ROWS_PER_PAGE := by
      simp only [List.length_cons] at hj
      omega
    rw [rows_per_page_eq] at hj'
    have hlen : (writeBytes pg (j * ROW_SIZE) (serializeRow r)).length = PAGE_SIZE := by
      rw [writeBytes_length]
      · exact hpg
      · rw [hsl, hpg, row_size_eq, page_size_eq]
        omega
    apply ih _ _ hlen (fun x hx => hwf x (by simp [hx]))
    rw [rows_per_page_eq]
    omega

theorem writeRows_snoc (rows : List Row) (r : Row) (pg : List Nat) (j : Nat) :
    writeRows pg j (rows ++ [r]) =
      writeBytes (writeRows pg j rows) ((j + rows.length) * ROW_SIZE) (serializeRow r) := by
  induction rows generalizing pg j with
  | nil => simp [writeRows]
  | cons x xs ih =>
    simp only [List.cons_append, writeRows, List.append_eq]
    rw [ih]
    have h : j + 1 + xs.length = j + (x :: xs).length := by
      simp only [List.length_cons]
      omega
    rw [h]

theorem writeRows_seg_below (rows : List Row) (pg : List Nat) (j o k : Nat)
    (hpg : pg.length = PAGE_SIZE) (hwf : ∀ r ∈ rows, wfRow r)
    (hj : j + rows.length ≤ ROWS_PER_PAGE) (ho : o + k ≤ j * ROW_SIZE) :
    ((writeRows pg j rows).drop o).take k = (pg.drop o).take k := by
  induction rows generalizing pg j with
  | nil => rfl
  | cons r rs ih =>
    simp only [writeRows]
    have hr : wfRow r := hwf r (by simp)
    have hsl : (serializeRow r).length = ROW_SIZE := serializeRow_length r hr
    have hj' : j + rs.length + 1 ≤ ROWS_PER_PAGE := by
      simp only [List.length_cons] at hj
      omega
    have hb : j * ROW_SIZE + (serializeRow r).length ≤ pg.length := by
      rw [hsl, hpg, row_size_eq, page_size_eq]
      rw [rows_per_page_eq] at hj'
      omega
    have hlen : (writeBytes pg (j * ROW_SIZE) (serializeRow r)).length = PAGE_SIZE := by
      rw [writeBytes_length pg (serializeRow r) (j * ROW_SIZE) hb, hpg]
    rw [ih (writeBytes pg (j * ROW_SIZE) (serializeRow r)) (j + 1) hlen
      (fun x hx => hwf x (by simp [hx])) (by omega)
      (by rw [row_size_eq] at ho ⊢; omega)]
    exact writeBytes_seg_untouched pg (serializeRow r) (j * ROW_SIZE) o k hb (Or.inl ho)

theorem writeRows_drop_ge (rows : List Row) (pg : List Nat) (j o : Nat)
    (hpg : pg.length = PAGE_SIZE) (hwf : ∀ r ∈ rows, wfRow r)
    (hj : j + rows.length ≤ ROWS_PER_PAGE) (ho : (j + rows.length) * ROW_SIZE ≤ o) :
    (writeRows pg j rows).drop o = pg.drop o := by
  induction rows generalizing pg j with
  | nil => rfl
  | cons r rs ih =>
    simp only [writeRows]
    have hr : wfRow r := hwf r (by simp)
    have hsl : (serializeRow r).length = ROW_SIZE := serializeRow_length r hr
    have hj' : j + rs.length + 1 ≤ ROWS_PER_PAGE := by
      simp only [List.length_cons] at hj
      omega
    have hb : j * ROW_SIZE + (serializeRow r).length ≤ pg.length := by
      rw [hsl, hpg, row_size_eq, page_size_eq]
      rw [rows_per_page_eq] at hj'
      omega
    have hlen : (writeBytes pg (j * ROW_SIZE) (serializeRow r)).length = PAGE_SIZE := by
      rw [writeBytes_length pg (serializeRow r) (j * ROW_SIZE) hb, hpg]
    have ho' : (j + 1 + rs.length) * ROW_SIZE ≤ o := by
      simp only [List.length_cons] at ho
      rw [row_size_eq] at ho ⊢
      omega
    rw [ih (writeBytes pg (j * ROW_SIZE) (serializeRow r)) (j + 1) hlen
      (fun x hx => hwf x (by simp [hx])) (by omega) ho']
    apply writeBytes_drop_ge pg (serializeRow r) (j * ROW_SIZE) o hb
    rw [hsl]
    simp only [List.length_cons] at ho
    rw [row_size_eq] at ho ⊢
    omega

theorem writeRows_slot (rows : List Row) (pg : List Nat) (j k : Nat)
    (hpg : pg.length = PAGE_SIZE) (hwf : ∀ r ∈ rows, wfRow r)
    (hj : j + rows.length ≤ ROWS_PER_PAGE) (hk : k < rows.length) :
    ((writeRows pg j rows).drop ((j + k) * ROW_SIZE)).take ROW_SIZE =
      serializeRow (rows.getD k default) := by
  induction rows generalizing pg j k with
  | nil => simp at hk
  | cons r rs ih =>
    simp only [writeRows]
    have hr : wfRow r := hwf r (by simp)
    have hsl : (serializeRow r).length = ROW_SIZE := serializeRow_length r hr
    have hj' : j + rs.length + 1 ≤ ROWS_PER_PAGE := by
      simp only [List.length_cons] at hj
      omega
    have hb : j * ROW_SIZE + (serializeRow r).length ≤ pg.length := by
      rw [hsl, hpg, row_size_eq, page_size_eq]
      rw [rows_per_page_eq] at hj'
      omega
    have hlen : (writeBytes pg (j * ROW_SIZE) (serializeRow r)).length = PAGE_SIZE := by
      rw [writeBytes_length pg (serializeRow r) (j * ROW_SIZE) hb, hpg]
    match k with
    | 0 =>
      simp only [Nat.add_zero, List.getD_cons_zero]
      rw [writeRows_seg_below rs (writeBytes pg (j * ROW_SIZE) (serializeRow r)) (j + 1)
        (j * ROW_SIZE) ROW_SIZE hlen (fun x hx => hwf x (by simp [hx])) (by omega)
        (by rw [row_size_eq]; omega)]
      have := writeBytes_seg_eq pg (serializeRow r) (j * ROW_SIZE) hb
      rw [hsl] at this
      exact this
    | k' + 1 =>
      simp only [List.getD_cons_succ]
      have harith : j + (k' + 1) = (j + 1) + k' := by omega
      rw [harith]
      exact ih (writeBytes pg (j * ROW_SIZE) (serializeRow r)) (j + 1) k' hlen
        (fun x hx => hwf x (by simp [hx])) (by omega) (by simp only [List.length_cons] at hk; omega)

/- The first rows.length * ROW_SIZE bytes of a page written from slot 0 are
   exactly the concatenation of the serialized rows. -/
theorem writeRows_take_flat (rows : List Row) (pg : List Nat) (j : Nat)
    (hpg : pg.length = PAGE_SIZE) (hwf : ∀ r ∈ rows, wfRow r)
    (hj : j + rows.length ≤ ROWS_PER_PAGE) :
    ((writeRows pg j rows).drop (j * ROW_SIZE)).take (rows.length * ROW_SIZE) =
      (rows.map serializeRow).flatten := by
  induction rows generalizing pg j with
  | nil => simp
  | cons r rs ih =>
    simp only [writeRows, List.map_cons, List.flatten_cons, List.length_cons]
    have hr : wfRow r := hwf r (by simp)
    have hsl : (serializeRow r).length = ROW_SIZE := serializeRow_length r hr
    have hj' : j + rs.length + 1 ≤ ROWS_PER_PAGE := by
      simp only [List.length_cons] at hj
      omega
    have hb : j * ROW_SIZE + (serializeRow r).length ≤ pg.length := by
      rw [hsl, hpg, row_size_eq, page_size_eq]
      rw [rows_per_page_eq] at hj'
      omega
    have hlen : (writeBytes pg (j * ROW_SIZE) (serializeRow r)).length = PAGE_SIZE := by
      rw [writeBytes_length pg (serializeRow r) (j * ROW_SIZE) hb, hpg]
    have hsplit : (rs.length + 1) * ROW_SIZE = ROW_SIZE + rs.length * ROW_SIZE := by
      rw [row_size_eq]
      omega
    rw [hsplit, List.take_add, List.drop_drop]
    have hfirst :
        ((writeRows (writeBytes pg (j * ROW_SIZE) (serializeRow r)) (j + 1) rs).drop
          (j * ROW_SIZE)).take ROW_SIZE = serializeRow r := by
      rw [writeRows_seg_below rs (writeBytes pg (j * ROW_SIZE) (serializeRow r)) (j + 1)
        (j * ROW_SIZE) ROW_SIZE hlen (fun x hx => hwf x (by simp [hx])) (by omega)
        (by rw [row_size_eq]; omega)]
      have := writeBytes_seg_eq pg (serializeRow r) (j * ROW_SIZE) hb
      rw [hsl] at this
      exact this
    rw [hfirst]
    have harith : j * ROW_SIZE + ROW_SIZE = (j + 1) * ROW_SIZE := by
      rw [row_size_eq]
      omega
    rw [harith, ih (writeBytes pg (j * ROW_SIZE) (serializeRow r)) (j + 1) hlen
      (fun x hx => hwf x (by simp [hx])) (by omega)]

theorem pageRows_length (rs : List Row) (p : Nat) :
    (pageRows rs p).length = min ROWS_PER_PAGE (rs.length - ROWS_PER_PAGE * p) := by
  simp [pageRows, List.length_take, List.length_drop]

theorem pageRows_wf (rs : List Row) (p : Nat) (hwf : wfRows rs) :
    ∀ x ∈ pageRows rs p, wfRow x := by
  intro x hx
  exact hwf x (List.drop_subset _ _ (List.take_subset _ _ hx))

theorem sessionPage_length (junks : Nat → List Nat) (rs : List Row) (p : Nat)
    (hj : wfJunks junks) (hwf : wfRows rs) :
    (sessionPage junks rs p).length = PAGE_SIZE := by
  apply writeRows_length _ _ _ (hj p) (pageRows_wf rs p hwf)
  have := pageRows_length rs p
  omega

theorem sessionPages_length (junks : Nat → List Nat) (rs : List Row) :
    (sessionPages junks rs).length = TABLE_MAX_PAGES := by
  simp [sessionPages]

theorem sessionPages_getD (junks : Nat → List Nat) (rs : List Row) (p : Nat)
    (hp : p < TABLE_MAX_PAGES) :
    (sessionPages junks rs).getD p none =
      if ROWS_PER_PAGE * p < rs.length then some (sessionPage junks rs p) else none := by
  rw [List.getD_eq_getElem?_getD, sessionPages, List.getElem?_map, List.getElem?_range hp]
  rfl

theorem sessionPages_empty (junks : Nat → List Nat) :
    sessionPages junks [] = List.replicate TABLE_MAX_PAGES none := by
  apply List.ext_getElem?
  intro i
  by_cases hi : i < TABLE_MAX_PAGES
  · rw [sessionPages, List.getElem?_map, List.getElem?_range hi,
      List.getElem?_replicate_of_lt hi]
    simp
  · rw [List.getElem?_eq_none, List.getElem?_eq_none]
    · simp only [List.length_replicate]
      omega
    · rw [sessionPages_length]
      omega

theorem getPageLoad_nil (p : Nat) (junk : List Nat) : getPageLoad [] p junk = junk := by
  by_cases hp : p ≤ numPagesOfFile ([] : List Nat).length
  · simp [getPageLoad, hp]
  · simp [getPageLoad, hp]

theorem getPageFatal_false (p : Nat) (hp : p ≤ TABLE_MAX_PAGES) : getPageFatal p = false := by
  simp only [getPageFatal, TABLE_MAX_PAGES] at hp ⊢
  simp
  omega

theorem drop_append_single (rs : List Row) (r : Row) (n : Nat) (hn : n ≤ rs.length) :
    (rs ++ [r]).drop n = rs.drop n ++ [r] := by
  rw [List.drop_append_eq_append_drop]
  have : n - rs.length = 0 := by omega
  rw [this]
  rfl

theorem pageRows_append_last (rs : List Row) (r : Row) :
    pageRows (rs ++ [r]) (rs.length / ROWS_PER_PAGE) =
      pageRows rs (rs.length / ROWS_PER_PAGE) ++ [r] := by
  unfold pageRows
  rw [rows_per_page_eq]
  have h1 : 13 * (rs.length / 13) ≤ rs.length := by omega
  rw [drop_append_single rs r _ h1, List.take_append_eq_append_take]
  have h3 : ([r] : List Row).take (13 - (rs.drop (13 * (rs.length / 13))).length) = [r] := by
    apply List.take_of_length_le
    simp only [List.length_drop, List.length_cons, List.length_nil]
    omega
  rw [h3]

theorem pageRows_append_ne (rs : List Row) (r : Row) (q : Nat)
    (hq : q ≠ rs.length / ROWS_PER_PAGE) :
    pageRows (rs ++ [r]) q = pageRows rs q := by
  unfold pageRows
  rw [rows_per_page_eq] at hq ⊢
  by_cases hcase : 13 * q ≤ rs.length
  · rw [drop_append_single rs r _ hcase, List.take_append_eq_append_take]
    have h3 : ([r] : List Row).take (13 - (rs.drop (13 * q)).length) = [] := by
      have h0 : 13 - (rs.drop (13 * q)).length = 0 := by
        simp only [List.length_drop]
        omega
      rw [h0]
      rfl
    rw [h3, List.append_nil]
  · have h4 : (rs ++ [r]).drop (13 * q) = [] := by
      apply List.drop_eq_nil_of_le
      simp only [List.length_append, List.length_cons, List.length_nil]
      omega
    have h5 : rs.drop (13 * q) = [] := List.drop_eq_nil_of_le (by omega)
    rw [h4, h5]

theorem sessionPages_append (junks : Nat → List Nat) (rs : List Row) (r : Row)
    (hlen : rs.length < TABLE_MAX_ROWS) :
    sessionPages junks (rs ++ [r]) =
      (sessionPages junks rs).set (rs.length / ROWS_PER_PAGE)
        (some (sessionPage junks (rs ++ [r]) (rs.length / ROWS_PER_PAGE))) := by
  have hpn : rs.length / ROWS_PER_PAGE < TABLE_MAX_PAGES := by
    rw [rows_per_page_eq]
    rw [table_max_rows_eq] at hlen
    simp only [TABLE_MAX_PAGES]
    omega
  apply List.ext_getElem?
  intro i
  by_cases hi : i < TABLE_MAX_PAGES
  · by_cases hipn : i = rs.length / ROWS_PER_PAGE
    · subst hipn
      rw [List.getElem?_set_self (by rw [sessionPages_length]; exact hpn)]
      rw [sessionPages, List.getElem?_map, List.getElem?_range hi]
      have hc : ROWS_PER_PAGE * (rs.length / ROWS_PER_PAGE) < (rs ++ [r]).length := by
        simp only [List.length_append, List.length_cons, List.length_nil]
        rw [rows_per_page_eq]
        omega
      simp only [Option.map_some', if_pos hc]
    · rw [List.getElem?_set_ne (fun h => hipn h.symm)]
      rw [sessionPages, sessionPages, List.getElem?_map, List.getElem?_map,
        List.getElem?_range hi]
      have hcond : (ROWS_PER_PAGE * i < (rs ++ [r]).length) ↔ (ROWS_PER_PAGE * i < rs.length) := by
        simp only [List.length_append, List.length_cons, List.length_nil]
        rw [rows_per_page_eq] at hipn ⊢
        omega
      by_cases hres : ROWS_PER_PAGE * i < rs.length
      · simp only [Option.map_some', if_pos hres, if_pos (hcond.mpr hres)]
        unfold sessionPage
        rw [pageRows_append_ne rs r i hipn]
      · simp only [Option.map_some', if_neg hres, if_neg (fun h => hres (hcond.mp h))]
  · rw [List.getElem?_eq_none, List.getElem?_eq_none]
    · rw [List.length_set, sessionPages_length]
      omega
    · rw [sessionPages_length]
      omega

/- One successful insert, starting from the state reached by inserting rs
   into a store opened on an empty file, produces exactly the state for
   rs ++ [r]. -/
theorem executeInsert_session (junks : Nat → List Nat) (rs : List Row) (r : Row)
    (hlen : rs.length < TABLE_MAX_ROWS) :
    executeInsertStatement r (sessionTable junks rs) =
      some (ExecuteResult.EXECUTE_SUCCESS, sessionTable junks (rs ++ [r])) := by
  have hlen13 : rs.length < 1300 := by rw [table_max_rows_eq] at hlen; exact hlen
  have hpn : rs.length / ROWS_PER_PAGE < TABLE_MAX_PAGES := by
    rw [rows_per_page_eq]
    simp only [TABLE_MAX_PAGES]
    omega
  have hfatal : getPageFatal (rs.length / ROWS_PER_PAGE) = false := by
    apply getPageFatal_false
    simp only [TABLE_MAX_PAGES] at hpn ⊢
    omega
  have hpage : sessionPage junks (rs ++ [r]) (rs.length / ROWS_PER_PAGE) =
      writeBytes (sessionPage junks rs (rs.length / ROWS_PER_PAGE))
        (rs.length % ROWS_PER_PAGE * ROW_SIZE) (serializeRow r) := by
    unfold sessionPage
    rw [pageRows_append_last rs r, writeRows_snoc]
    congr 2
    rw [pageRows_length, rows_per_page_eq]
    omega
  have hnumrows : (rs ++ [r]).length = rs.length + 1 := by
    simp
  simp only [executeInsertStatement, sessionTable, rowSlotWrite, getPage, hfatal,
    Bool.false_eq_true, if_false, if_neg (show ¬ rs.length ≥ TABLE_MAX_ROWS by
      rw [table_max_rows_eq]; omega)]
  rw [sessionPages_getD junks rs (rs.length / ROWS_PER_PAGE) hpn]
  by_cases h0 : rs.length % ROWS_PER_PAGE = 0
  · -- cache miss: the page holding the new row has no rows yet
    have hres : ¬ ROWS_PER_PAGE * (rs.length / ROWS_PER_PAGE) < rs.length := by
      rw [rows_per_page_eq] at h0 ⊢
      omega
    rw [if_neg hres]
    have hnalloc : (rs.length + (ROWS_PER_PAGE - 1)) / ROWS_PER_PAGE =
        rs.length / ROWS_PER_PAGE := by
      rw [rows_per_page_eq] at h0 ⊢
      omega
    have hempty : pageRows rs (rs.length / ROWS_PER_PAGE) = [] := by
      apply List.eq_nil_of_length_eq_zero
      rw [pageRows_length, rows_per_page_eq]
      rw [rows_per_page_eq] at h0
      omega
    have hsp : sessionPage junks rs (rs.length / ROWS_PER_PAGE) =
        junks (rs.length / ROWS_PER_PAGE) := by
      unfold sessionPage
      rw [hempty]
      rfl
    simp only [hnalloc, getPageLoad_nil, List.set_set]
    rw [sessionPages_append junks rs r hlen, hpage, hsp, hnumrows]
    simp only [Option.some.injEq, Prod.mk.injEq, Table.mk.injEq, Pager.mk.injEq]
    simp only [true_and, and_true]
    rw [rows_per_page_eq] at h0 ⊢
    omega
  · -- cache hit: the page holding the new row is already resident
    have hres : ROWS_PER_PAGE * (rs.length / ROWS_PER_PAGE) < rs.length := by
      rw [rows_per_page_eq] at h0 ⊢
      omega
    rw [if_pos hres]
    rw [sessionPages_append junks rs r hlen, hpage, hnumrows]
    simp only [Option.some.injEq, Prod.mk.injEq, Table.mk.injEq, Pager.mk.injEq]
    simp only [true_and, and_true]
    rw [rows_per_page_eq] at h0 ⊢
    omega

theorem insertAll_snoc (t : Table) (rs : List Row) (r : Row) :
    insertAll t (rs ++ [r]) = insertStep r (insertAll t rs) := by
  induction rs generalizing t with
  | nil =>
    simp only [List.nil_append]
    cases h : executeInsertStatement r t with
    | none => simp [insertAll, insertStep, h]
    | some p =>
      obtain ⟨res, t1⟩ := p
      cases res <;> simp [insertAll, insertStep, h]
  | cons x xs ih =>
    cases h : executeInsertStatement x t with
    | none => simp [insertAll, insertStep, h]
    | some p =>
      obtain ⟨res, t1⟩ := p
      cases res
      · simpa [insertAll, insertStep, h] using ih t1
      · simp [insertAll, insertStep, h]

theorem sessionTable_empty (junks : Nat → List Nat) :
    sessionTable junks [] = openDatabase [] junks := by
  unfold sessionTable openDatabase
  rw [sessionPages_empty]
  norm_num [rows_per_page_eq, row_size_eq]

/- Inserting any sequence of at most TABLE_MAX_ROWS rows into a store opened
   on an empty file succeeds (every insert returns EXECUTE_SUCCESS) and
   produces exactly the session state. -/
theorem insertAll_session (junks : Nat → List Nat) (rs : List Row)
    (hlen : rs.length ≤ TABLE_MAX_ROWS) :
    insertAll (openDatabase [] junks) rs = some (sessionTable junks rs) := by
  induction rs using List.reverseRecOn with
  | nil =>
    rw [← sessionTable_empty]
    rfl
  | append_singleton xs x ih =>
    have hxs : xs.length < TABLE_MAX_ROWS := by
      simp only [List.length_append, List.length_cons, List.length_nil] at hlen
      omega
    rw [insertAll_snoc, ih (le_of_lt hxs)]
    simp only [insertStep]
    rw [executeInsert_session junks xs x hxs]

theorem rowSlotRead_session (junks : Nat → List Nat) (rs : List Row) (i : Nat)
    (hj : wfJunks junks) (hwf : wfRows rs)
    (hi : i < rs.length) (hlen : rs.length ≤ TABLE_MAX_ROWS) :
    rowSlotRead (sessionTable junks rs).pager i =
      some (rs.getD i default, (sessionTable junks rs).pager) := by
  have hi13 : i < 1300 := by
    rw [table_max_rows_eq] at hlen
    omega
  have hpn : i / ROWS_PER_PAGE < TABLE_MAX_PAGES := by
    rw [rows_per_page_eq]
    simp only [TABLE_MAX_PAGES]
    omega
  have hfatal : getPageFatal (i / ROWS_PER_PAGE) = false := by
    apply getPageFatal_false
    simp only [TABLE_MAX_PAGES] at hpn ⊢
    omega
  have hres : ROWS_PER_PAGE * (i / ROWS_PER_PAGE) < rs.length := by
    rw [rows_per_page_eq]
    omega
  have hprlen : (pageRows rs (i / ROWS_PER_PAGE)).length =
      min ROWS_PER_PAGE (rs.length - ROWS_PER_PAGE * (i / ROWS_PER_PAGE)) :=
    pageRows_length rs (i / ROWS_PER_PAGE)
  have hk : i % ROWS_PER_PAGE < (pageRows rs (i / ROWS_PER_PAGE)).length := by
    rw [hprlen, rows_per_page_eq] at *
    omega
  have hslot : ((sessionPage junks rs (i / ROWS_PER_PAGE)).drop
      (i % ROWS_PER_PAGE * ROW_SIZE)).take ROW_SIZE =
      serializeRow ((pageRows rs (i / ROWS_PER_PAGE)).getD (i % ROWS_PER_PAGE) default) := by
    have := writeRows_slot (pageRows rs (i / ROWS_PER_PAGE)) (junks (i / ROWS_PER_PAGE))
      0 (i % ROWS_PER_PAGE) (hj (i / ROWS_PER_PAGE))
      (pageRows_wf rs (i / ROWS_PER_PAGE) hwf)
      (by rw [hprlen]; omega) hk
    simpa [sessionPage] using this
  have hrow : (pageRows rs (i / ROWS_PER_PAGE)).getD (i % ROWS_PER_PAGE) default =
      rs.getD i default := by
    rw [List.getD_eq_getElem?_getD, List.getD_eq_getElem?_getD, pageRows,
      take_drop_getElem]
    rw [if_pos (by rw [rows_per_page_eq] at *; omega)]
    congr 2
    rw [rows_per_page_eq]
    omega
  have hwfi : wfRow (rs.getD i default) := by
    rw [List.getD_eq_getElem rs default hi]
    exact hwf _ (List.getElem_mem hi)
  simp only [rowSlotRead, getPage, sessionTable, hfatal, Bool.false_eq_true, if_false]
  rw [sessionPages_getD junks rs (i / ROWS_PER_PAGE) hpn, if_pos hres]
  simp only [Option.some.injEq, Prod.mk.injEq, and_true]
  rw [← deserializeRow_take, hslot, hrow, deserializeRow_serializeRow _ hwfi]

theorem readRows_session (junks : Nat → List Nat) (rs : List Row)
    (hj : wfJunks junks) (hwf : wfRows rs) (hlen : rs.length ≤ TABLE_MAX_ROWS) :
    ∀ n i, i + n ≤ rs.length →
      readRows (sessionTable junks rs).pager i n =
        some ((rs.drop i).take n, (sessionTable junks rs).pager) := by
  intro n
  induction n with
  | zero =>
    intro i _
    simp [readRows]
  | succ n ih =>
    intro i hin
    have hi : i < rs.length := by omega
    simp only [readRows, rowSlotRead_session junks rs i hj hwf hi hlen,
      ih (i + 1) (by omega)]
    have hcons : (rs.drop i).take (n + 1) = rs.getD i default :: (rs.drop (i + 1)).take n := by
      rw [List.drop_eq_getElem_cons hi, List.getD_eq_getElem rs default hi]
      rfl
    rw [hcons]

/- select after a session scans back exactly the inserted rows, in order,
   and leaves the table state unchanged. -/
theorem select_session (junks : Nat → List Nat) (rs : List Row)
    (hj : wfJunks junks) (hwf : wfRows rs) (hlen : rs.length ≤ TABLE_MAX_ROWS) :
    executeSelectStatement (sessionTable junks rs) =
      some (ExecuteResult.EXECUTE_SUCCESS, rs, sessionTable junks rs) := by
  simp only [executeSelectStatement]
  rw [show (sessionTable junks rs).numRows = rs.length from rfl,
    readRows_session junks rs hj hwf hlen rs.length 0 (by omega)]
  simp only [List.drop_zero, List.take_length]
  rfl

theorem fileWrite_append (f d : List Nat) (off : Nat) (hoff : f.length = off) :
    fileWrite f off d = f ++ d := by
  subst hoff
  simp only [fileWrite, List.take_length, Nat.sub_self, List.replicate_zero,
    List.nil_append]
  rw [List.drop_eq_nil_of_le (by omega)]
  simp

theorem flatten_sessionPages_length (junks : Nat → List Nat) (rs : List Row)
    (hj : wfJunks junks) (hwf : wfRows rs) :
    ∀ n, (((List.range n).map (sessionPage junks rs)).flatten).length = n * PAGE_SIZE := by
  intro n
  induction n with
  | zero => rfl
  | succ n ih =>
    rw [List.range_succ, List.map_append, List.flatten_append, List.length_append, ih]
    simp only [List.map_cons, List.map_nil, List.flatten_cons, List.flatten_nil,
      List.append_nil, sessionPage_length junks rs n hj hwf]
    rw [page_size_eq]
    omega

theorem flushFullPages_session (junks : Nat → List Nat) (rs : List Row)
    (hj : wfJunks junks) (hwf : wfRows rs) (hlen : rs.length ≤ TABLE_MAX_ROWS) :
    ∀ n, n ≤ rs.length / ROWS_PER_PAGE →
      flushFullPages (sessionPages junks rs) [] n =
        ((List.range n).map (sessionPage junks rs)).flatten := by
  intro n
  induction n with
  | zero => intro _; rfl
  | succ n ih =>
    intro hn
    have hn100 : n < TABLE_MAX_PAGES := by
      rw [table_max_rows_eq] at hlen
      rw [rows_per_page_eq] at hn
      simp only [TABLE_MAX_PAGES]
      omega
    have hres : ROWS_PER_PAGE * n < rs.length := by
      rw [rows_per_page_eq] at hn ⊢
      omega
    have htake : (sessionPage junks rs n).take PAGE_SIZE = sessionPage junks rs n :=
      List.take_of_length_le (le_of_eq (sessionPage_length junks rs n hj hwf))
    simp only [flushFullPages, ih (by omega), sessionPages_getD junks rs n hn100,
      if_pos hres, htake,
      fileWrite_append _ _ _ (flatten_sessionPages_length junks rs hj hwf n)]
    rw [List.range_succ, List.map_append, List.flatten_append]
    simp

theorem closeDatabase_session (junks : Nat → List Nat) (rs : List Row)
    (hj : wfJunks junks) (hwf : wfRows rs) (hlen : rs.length ≤ TABLE_MAX_ROWS) :
    closeDatabase (sessionTable junks rs) = sessionFile junks rs := by
  simp only [closeDatabase, sessionTable, sessionFile]
  rw [flushFullPages_session junks rs hj hwf hlen (rs.length / ROWS_PER_PAGE) (le_refl _)]
  by_cases h0 : rs.length % ROWS_PER_PAGE = 0
  · rw [if_neg (by omega)]
    rw [h0, Nat.zero_mul, List.take_zero, List.append_nil]
  · rw [if_pos (by omega)]
    have hpn100 : rs.length / ROWS_PER_PAGE < TABLE_MAX_PAGES := by
      rw [table_max_rows_eq] at hlen
      rw [rows_per_page_eq] at h0 ⊢
      simp only [TABLE_MAX_PAGES]
      omega
    have hres : ROWS_PER_PAGE * (rs.length / ROWS_PER_PAGE) < rs.length := by
      rw [rows_per_page_eq] at h0 ⊢
      omega
    simp only [sessionPages_getD junks rs (rs.length / ROWS_PER_PAGE) hpn100, if_pos hres,
      fileWrite_append _ _ _ (flatten_sessionPages_length junks rs hj hwf _)]

theorem sessionFile_length (junks : Nat → List Nat) (rs : List Row)
    (hj : wfJunks junks) (hwf : wfRows rs) :
    (sessionFile junks rs).length =
      rs.length / ROWS_PER_PAGE * PAGE_SIZE + rs.length % ROWS_PER_PAGE * ROW_SIZE := by
  simp only [sessionFile, List.length_append,
    flatten_sessionPages_length junks rs hj hwf, List.length_take,
    sessionPage_length junks rs _ hj hwf]
  rw [rows_per_page_eq, row_size_eq, page_size_eq]
  omega

/- A full (interior) page image: its 13 serialized rows back to back,
   followed by the 287 bytes of allocator slack that the full-page flush
   also writes out. -/
theorem sessionPage_full (junks : Nat → List Nat) (rs : List Row) (p : Nat)
    (hj : wfJunks junks) (hwf : wfRows rs) (hp : p < rs.length / ROWS_PER_PAGE) :
    sessionPage junks rs p =
      ((pageRows rs p).map serializeRow).flatten ++
        (junks p).drop (ROWS_PER_PAGE * ROW_SIZE) := by
  have hlen13 : (pageRows rs p).length = ROWS_PER_PAGE := by
    rw [pageRows_length, rows_per_page_eq] at *
    omega
  conv_lhs => rw [← List.take_append_drop (ROWS_PER_PAGE * ROW_SIZE) (sessionPage junks rs p)]
  congr 1
  · have h := writeRows_take_flat (pageRows rs p) (junks p) 0 (hj p)
      (pageRows_wf rs p hwf) (by rw [hlen13]; omega)
    simp only [Nat.zero_mul, List.drop_zero, hlen13] at h
    exact h
  · have h := writeRows_drop_ge (pageRows rs p) (junks p) 0 (ROWS_PER_PAGE * ROW_SIZE)
      (hj p) (pageRows_wf rs p hwf) (by rw [hlen13]; omega) (by rw [hlen13, Nat.zero_add])
    exact h

/- The flushed part of the trailing partial page: exactly the serialized
   trailing rows, with no slack. -/
theorem sessionPage_trailing_take (junks : Nat → List Nat) (rs : List Row)
    (hj : wfJunks junks) (hwf : wfRows rs) :
    (sessionPage junks rs (rs.length / ROWS_PER_PAGE)).take
        (rs.length % ROWS_PER_PAGE * ROW_SIZE) =
      ((pageRows rs (rs.length / ROWS_PER_PAGE)).map serializeRow).flatten := by
  have hlenr : (pageRows rs (rs.length / ROWS_PER_PAGE)).length =
      rs.length % ROWS_PER_PAGE := by
    rw [pageRows_length, rows_per_page_eq] at *
    omega
  have h := writeRows_take_flat (pageRows rs (rs.length / ROWS_PER_PAGE))
    (junks (rs.length / ROWS_PER_PAGE)) 0 (hj _)
    (pageRows_wf rs _ hwf) (by rw [hlenr, rows_per_page_eq] at *; omega)
  simp only [Nat.zero_mul, List.drop_zero, hlenr] at h
  exact h

/- The whole on-disk layout after a clean close of a session: full pages of
   13 rows plus allocator slack, then the trailing rows flat. -/
theorem sessionFile_structure (junks : Nat → List Nat) (rs : List Row)
    (hj : wfJunks junks) (hwf : wfRows rs) :
    sessionFile junks rs =
      ((List.range (rs.length / ROWS_PER_PAGE)).map
        (fun p => ((pageRows rs p).map serializeRow).flatten ++
          (junks p).drop (ROWS_PER_PAGE * ROW_SIZE))).flatten ++
      ((pageRows rs (rs.length / ROWS_PER_PAGE)).map serializeRow).flatten := by
  unfold sessionFile
  rw [sessionPage_trailing_take junks rs hj hwf]
  congr 2
  apply List.map_eq_map_iff.mpr
  intro p hp
  exact sessionPage_full junks rs p hj hwf (List.mem_range.mp hp)

/- getPageLoad always produces: the bytes actually read from the file at the
   page's offset, followed by the allocator-supplied (malloc) bytes for the
   rest of the buffer. -/
theorem getPageLoad_eq (file : List Nat) (pageNum : Nat) (junk : List Nat) :
    getPageLoad file pageNum junk =
      ((file.drop (pageNum * PAGE_SIZE)).take PAGE_SIZE) ++
        junk.drop ((file.drop (pageNum * PAGE_SIZE)).take PAGE_SIZE).length := by
  unfold getPageLoad
  by_cases hp : pageNum ≤ numPagesOfFile file.length
  · rw [if_pos hp]
  · rw [if_neg hp]
    have hchunk : file.drop (pageNum * PAGE_SIZE) = [] := by
      apply List.drop_eq_nil_of_le
      unfold numPagesOfFile at hp
      rw [page_size_eq] at hp ⊢
      by_cases hz : file.length % 4096 = 0
      · rw [if_pos hz] at hp
        omega
      · rw [if_neg hz] at hp
        omega
    rw [hchunk]
    rfl

/- getPage on an in-bounds, non-resident page returns the loaded buffer and
   caches it, consuming one allocation. -/
theorem getPage_miss (pager : Pager) (pageNum : Nat)
    (hb : pageNum ≤ TABLE_MAX_PAGES)
    (hmiss : pager.pages.getD pageNum none = none) :
    getPage pager pageNum =
      some (getPageLoad pager.file pageNum (pager.junks pager.nalloc),
        { pager with
            pages := pager.pages.set pageNum
              (some (getPageLoad pager.file pageNum (pager.junks pager.nalloc)))
            nalloc := pager.nalloc + 1 }) := by
  have hmiss' : pager.pages[pageNum]?.getD none = none := by
    rw [← List.getD_eq_getElem?_getD]
    exact hmiss
  simp [getPage, getPageFatal_false pageNum hb, hmiss']

/- The scanned value of a row depends only on the file, the allocator, the
   allocation counter, and the row's own page slot. -/
theorem rowSlotRead_value_congr (p1 p2 : Pager) (i : Nat)
    (hfile : p1.file = p2.file) (hjunks : p1.junks = p2.junks)
    (hnalloc : p1.nalloc = p2.nalloc)
    (hq : p1.pages.getD (i / ROWS_PER_PAGE) none = p2.pages.getD (i / ROWS_PER_PAGE) none) :
    (rowSlotRead p1 i).map Prod.fst = (rowSlotRead p2 i).map Prod.fst := by
  unfold rowSlotRead getPage
  rw [hq, hfile, hjunks, hnalloc]
  by_cases hf : getPageFatal (i / ROWS_PER_PAGE) = true
  · simp [hf]
  · simp only [Bool.not_eq_true] at hf
    simp only [hf, Bool.false_eq_true, if_false]
    cases p2.pages.getD (i / ROWS_PER_PAGE) none <;> simp

theorem executeInsert_frame (t : Table) (r : Row) (pg : List Nat)
    (hlen : t.numRows < TABLE_MAX_ROWS)
    (hpages : t.pager.pages.length = TABLE_MAX_PAGES)
    (hres : t.pager.pages.getD (t.numRows / ROWS_PER_PAGE) none = some pg)
    (hpg : pg.length = PAGE_SIZE) (hr : wfRow r) :
    insertFrame t r pg := by
  have hsl : (serializeRow r).length = ROW_SIZE := serializeRow_length r hr
  have hlen13 : t.numRows < 1300 := by
    rw [table_max_rows_eq] at hlen
    exact hlen
  have hpn : t.numRows / ROWS_PER_PAGE < TABLE_MAX_PAGES := by
    rw [rows_per_page_eq]
    simp only [TABLE_MAX_PAGES]
    omega
  have hfatal : getPageFatal (t.numRows / ROWS_PER_PAGE) = false := by
    apply getPageFatal_false
    simp only [TABLE_MAX_PAGES] at hpn ⊢
    omega
  have hoff : t.numRows % ROWS_PER_PAGE * ROW_SIZE + (serializeRow r).length ≤ pg.length := by
    rw [hsl, hpg, rows_per_page_eq, row_size_eq, page_size_eq]
    omega
  refine ⟨?_, ?_, ?_, ?_⟩
  · simp only [executeInsertStatement, rowSlotWrite, getPage, hfatal, Bool.false_eq_true,
      if_false, hres,
      if_neg (show ¬ t.numRows ≥ TABLE_MAX_ROWS by rw [table_max_rows_eq]; omega)]
  · intro q hq
    simp only [List.getD_eq_getElem?_getD, List.getElem?_set_ne (fun h => hq h.symm)]
  · intro b hb
    rw [List.getD_eq_getElem?_getD, List.getD_eq_getElem?_getD,
      writeBytes_getElem pg (serializeRow r) _ b hoff]
    rcases hb with hb | hb
    · rw [if_pos hb]
    · rw [if_neg (by omega), if_neg (by omega)]
  · intro i hi
    by_cases hq : i / ROWS_PER_PAGE = t.numRows / ROWS_PER_PAGE
    · have hfatal2 : getPageFatal (i / ROWS_PER_PAGE) = false := by
        rw [hq]
        exact hfatal
      have hgetset : (t.pager.pages.set (t.numRows / ROWS_PER_PAGE)
          (some (writeBytes pg (t.numRows % ROWS_PER_PAGE * ROW_SIZE) (serializeRow r)))).getD
            (i / ROWS_PER_PAGE) none =
          some (writeBytes pg (t.numRows % ROWS_PER_PAGE * ROW_SIZE) (serializeRow r)) := by
        rw [hq, List.getD_eq_getElem?_getD,
          List.getElem?_set_self (by rw [hpages]; exact hpn)]
        rfl
      have hgetold : t.pager.pages.getD (i / ROWS_PER_PAGE) none = some pg := by
        rw [hq]
        exact hres
      simp only [rowSlotRead, getPage, hfatal2, Bool.false_eq_true, if_false, hgetset,
        hgetold, Option.map_some']
      have hmod : i % ROWS_PER_PAGE ≠ t.numRows % ROWS_PER_PAGE := by
        rw [rows_per_page_eq] at hq ⊢
        omega
      have hseg : ((writeBytes pg (t.numRows % ROWS_PER_PAGE * ROW_SIZE)
          (serializeRow r)).drop (i % ROWS_PER_PAGE * ROW_SIZE)).take ROW_SIZE =
          (pg.drop (i % ROWS_PER_PAGE * ROW_SIZE)).take ROW_SIZE := by
        apply writeBytes_seg_untouched pg (serializeRow r) _ _ _ hoff
        rw [hsl, rows_per_page_eq, row_size_eq] at *
        omega
      have hval : deserializeRow ((writeBytes pg (t.numRows % ROWS_PER_PAGE * ROW_SIZE)
          (serializeRow r)).drop (i % ROWS_PER_PAGE * ROW_SIZE)) =
          deserializeRow (pg.drop (i % ROWS_PER_PAGE * ROW_SIZE)) := by
        rw [← deserializeRow_take, hseg, deserializeRow_take]
      simp [hval]
    · apply rowSlotRead_value_congr
      · rfl
      · rfl
      · rfl
      · simp only [List.getD_eq_getElem?_getD, List.getElem?_set_ne (fun h => hq h.symm)]

theorem zeroJunks_wf : wfJunks zeroJunks := by
  intro n
  simp [zeroJunks]

theorem mkRows_wf (n : Nat) (h : n ≤ 4294967296) : wfRows (mkRows n) := by
  intro r hr
  simp only [mkRows, List.mem_map, List.mem_range] at hr
  obtain ⟨i, hi, rfl⟩ := hr
  refine ⟨by simp [mkRow]; omega, by simp [mkRow], by simp [mkRow]⟩

theorem mkRows_length (n : Nat) : (mkRows n).length = n := by
  simp [mkRows]

/-- C1: the persistence round-trip claim fails on this code. Evaluated at the
claim's own scenario with 26 valid rows inserted into a store opened on an
empty file: all 26 inserts succeed, but closeDatabase writes a
2*PAGE_SIZE = 8192 byte file (full pages are flushed PAGE_SIZE bytes each),
so the reopened store's row count, file_length / ROW_SIZE = 8192 / 293,
is 27, not 26: an extra garbage row appears in select_all. -/
theorem claim_C1_roundtrip_failure :
    insertAll (openDatabase [] zeroJunks) (mkRows 26) =
      some (sessionTable zeroJunks (mkRows 26)) ∧
    (mkRows 26).length = 26 ∧
    (closeDatabase (sessionTable zeroJunks (mkRows 26))).length = 8192 ∧
    (openDatabase (closeDatabase (sessionTable zeroJunks (mkRows 26))) zeroJunks).numRows
      = 27 := by
  have hwf : wfRows (mkRows 26) := mkRows_wf 26 (by norm_num)
  have hlen : (mkRows 26).length = 26 := mkRows_length 26
  have hle : (mkRows 26).length ≤ TABLE_MAX_ROWS := by
    rw [hlen, table_max_rows_eq]
    omega
  have hins := insertAll_session zeroJunks (mkRows 26) hle
  have hfile : (closeDatabase (sessionTable zeroJunks (mkRows 26))).length = 8192 := by
    rw [closeDatabase_session zeroJunks (mkRows 26) zeroJunks_wf hwf hle,
      sessionFile_length zeroJunks (mkRows 26) zeroJunks_wf hwf, hlen,
      rows_per_page_eq, page_size_eq, row_size_eq]
  refine ⟨hins, hlen, hfile, ?_⟩
  simp only [openDatabase]
  rw [hfile, row_size_eq]

/-- C2 counterexample: at the claim's own scenario N = 14 (N > 0, N not a
multiple of ROWS_PER_PAGE = 13, valid rows, empty initial file), the file
written by closeDatabase has length PAGE_SIZE + ROW_SIZE = 4389, not
N * ROW_SIZE = 4102: the full page is flushed with PAGE_SIZE bytes, so the
file is page-padded, not a flat concatenation of row records. -/
theorem claim_C2_flat_file_counterexample :
    (mkRows 14).length = 14 ∧
    14 % ROWS_PER_PAGE ≠ 0 ∧
    insertAll (openDatabase [] zeroJunks) (mkRows 14) =
      some (sessionTable zeroJunks (mkRows 14)) ∧
    (closeDatabase (sessionTable zeroJunks (mkRows 14))).length = 4389 ∧
    4389 ≠ 14 * ROW_SIZE := by
  have hwf : wfRows (mkRows 14) := mkRows_wf 14 (by norm_num)
  have hlen : (mkRows 14).length = 14 := mkRows_length 14
  have hle : (mkRows 14).length ≤ TABLE_MAX_ROWS := by
    rw [hlen, table_max_rows_eq]
    omega
  refine ⟨hlen, by decide, insertAll_session zeroJunks (mkRows 14) hle, ?_, by decide⟩
  rw [closeDatabase_session zeroJunks (mkRows 14) zeroJunks_wf hwf hle,
    sessionFile_length zeroJunks (mkRows 14) zeroJunks_wf hwf, hlen,
    rows_per_page_eq, page_size_eq, row_size_eq]

/-- C2 amended: after inserting N valid rows into a store opened on an empty
file, closeDatabase writes a file of length
(N / ROWS_PER_PAGE) * PAGE_SIZE + (N % ROWS_PER_PAGE) * ROW_SIZE, laid out
as the concatenation of the full page images (each: its 13 serialized rows
back to back followed by PAGE_SIZE - 13 * ROW_SIZE allocator-slack bytes)
followed by the trailing partial page's rows flat, with no header and no
trailing metadata. It is a flat record concatenation only when N < 13. -/
theorem claim_C2_file_layout (junks : Nat → List Nat) (rs : List Row)
    (hj : wfJunks junks) (hwf : wfRows rs) (hlen : rs.length ≤ TABLE_MAX_ROWS) :
    ∃ t, insertAll (openDatabase [] junks) rs = some t ∧
      closeDatabase t =
        ((List.range (rs.length / ROWS_PER_PAGE)).map
          (fun p => ((pageRows rs p).map serializeRow).flatten ++
            (junks p).drop (ROWS_PER_PAGE * ROW_SIZE))).flatten ++
        ((pageRows rs (rs.length / ROWS_PER_PAGE)).map serializeRow).flatten ∧
      (closeDatabase t).length =
        rs.length / ROWS_PER_PAGE * PAGE_SIZE + rs.length % ROWS_PER_PAGE * ROW_SIZE := by
  refine ⟨sessionTable junks rs, insertAll_session junks rs hlen, ?_, ?_⟩
  · rw [closeDatabase_session junks rs hj hwf hlen]
    exact sessionFile_structure junks rs hj hwf
  · rw [closeDatabase_session junks rs hj hwf hlen]
    exact sessionFile_length junks rs hj hwf

theorem claim_C2_file_layout_witness :
    wfJunks zeroJunks ∧ wfRows (mkRows 14) ∧ (mkRows 14).length ≤ TABLE_MAX_ROWS ∧
    (∃ t, insertAll (openDatabase [] zeroJunks) (mkRows 14) = some t ∧
      closeDatabase t =
        ((List.range ((mkRows 14).length / ROWS_PER_PAGE)).map
          (fun p => ((pageRows (mkRows 14) p).map serializeRow).flatten ++
            (zeroJunks p).drop (ROWS_PER_PAGE * ROW_SIZE))).flatten ++
        ((pageRows (mkRows 14) ((mkRows 14).length / ROWS_PER_PAGE)).map serializeRow).flatten ∧
      (closeDatabase t).length =
        (mkRows 14).length / ROWS_PER_PAGE * PAGE_SIZE +
          (mkRows 14).length % ROWS_PER_PAGE * ROW_SIZE) :=
  ⟨zeroJunks_wf, mkRows_wf 14 (by norm_num),
    by rw [mkRows_length, table_max_rows_eq]; omega,
    claim_C2_file_layout zeroJunks (mkRows 14) zeroJunks_wf
      (mkRows_wf 14 (by norm_num))
      (by rw [mkRows_length, table_max_rows_eq]; omega)⟩

/-- C3: the page-bounds check claim fails on this code. The source tests
pageNum > TABLE_MAX_PAGES (src/main.c:147), not >=, so at
pageNum = TABLE_MAX_PAGES = 100 the fatal branch is NOT taken and getPage
proceeds (in C this dereferences pages[100], one past the end of the
array); the branch fires only from 101 on. -/
theorem claim_C3_bounds_check_off_by_one :
    getPageFatal TABLE_MAX_PAGES = false ∧
    (getPage pagerEmptyZero TABLE_MAX_PAGES).isSome = true ∧
    getPageFatal (TABLE_MAX_PAGES + 1) = true := by
  refine ⟨rfl, ?_, rfl⟩
  rfl

/-- C4 counterexample: a cache miss buffer is malloc'd, not zero-initialized.
With an allocator whose buffers hold the byte 1 everywhere, getPage on the
in-bounds non-resident page 0 of an empty file (zero bytes read) returns a
buffer whose byte 0 is 1, not 0. -/
theorem claim_C4_zero_buffer_counterexample :
    ((getPage pagerEmptyOnes 0).map (fun x => x.1.getD 0 0)) = some 1 ∧
    (some 1 : Option Nat) ≠ some 0 := by
  exact ⟨rfl, by decide⟩

/-- C4 amended: on a cache miss for an in-bounds page, getPage allocates a
page-sized buffer with malloc — its initial contents are the (unspecified)
allocator contents, not zeroes — reads up to PAGE_SIZE bytes of the file
over its start, and returns the read bytes followed by the allocator's
bytes at every position past the short read (the whole allocator buffer for
a page outside the file extent). Those bytes are zero only if the allocator
happens to hand back zeroed memory. -/
theorem claim_C4_miss_buffer (pager : Pager) (pageNum : Nat)
    (hb : pageNum < TABLE_MAX_PAGES)
    (hmiss : pager.pages.getD pageNum none = none) :
    ∃ pager', getPage pager pageNum =
      some ((pager.file.drop (pageNum * PAGE_SIZE)).take PAGE_SIZE ++
        (pager.junks pager.nalloc).drop
          ((pager.file.drop (pageNum * PAGE_SIZE)).take PAGE_SIZE).length, pager') ∧
      ∀ b, ((pager.file.drop (pageNum * PAGE_SIZE)).take PAGE_SIZE).length ≤ b →
        ((pager.file.drop (pageNum * PAGE_SIZE)).take PAGE_SIZE ++
          (pager.junks pager.nalloc).drop
            ((pager.file.drop (pageNum * PAGE_SIZE)).take PAGE_SIZE).length)[b]? =
        (pager.junks pager.nalloc)[b]? := by
  have hg := getPage_miss pager pageNum (le_of_lt hb) hmiss
  simp only [getPageLoad_eq] at hg
  refine ⟨_, hg, ?_⟩
  intro b hb2
  rw [List.getElem?_append_right hb2, List.getElem?_drop]
  congr 1
  omega

theorem claim_C4_miss_buffer_witness :
    0 < TABLE_MAX_PAGES ∧
    pagerEmptyZero.pages.getD 0 none = none ∧
    (∃ pager', getPage pagerEmptyZero 0 =
      some ((pagerEmptyZero.file.drop (0 * PAGE_SIZE)).take PAGE_SIZE ++
        (pagerEmptyZero.junks pagerEmptyZero.nalloc).drop
          ((pagerEmptyZero.file.drop (0 * PAGE_SIZE)).take PAGE_SIZE).length, pager') ∧
      ∀ b, ((pagerEmptyZero.file.drop (0 * PAGE_SIZE)).take PAGE_SIZE).length ≤ b →
        ((pagerEmptyZero.file.drop (0 * PAGE_SIZE)).take PAGE_SIZE ++
          (pagerEmptyZero.junks pagerEmptyZero.nalloc).drop
            ((pagerEmptyZero.file.drop (0 * PAGE_SIZE)).take PAGE_SIZE).length)[b]? =
        (pagerEmptyZero.junks pagerEmptyZero.nalloc)[b]?) :=
  ⟨by decide, by decide, claim_C4_miss_buffer pagerEmptyZero 0 (by decide) (by decide)⟩

/-- C5: inserting TABLE_MAX_ROWS = 1300 rows into a store opened on an empty
file succeeds (every insert returns EXECUTE_SUCCESS), reaching
numRows = TABLE_MAX_ROWS; and any insert into any table whose row count is
at TABLE_MAX_ROWS returns EXECUTE_TABLE_FULL with the table state —
row count and all page contents — returned entirely unchanged. -/
theorem claim_C5_capacity (junks : Nat → List Nat) (rs : List Row)
    (hlen : rs.length = TABLE_MAX_ROWS) :
    (∃ t, insertAll (openDatabase [] junks) rs = some t ∧
      t.numRows = TABLE_MAX_ROWS ∧
      ∀ r, executeInsertStatement r t = some (ExecuteResult.EXECUTE_TABLE_FULL, t)) ∧
    (∀ (u : Table) (r : Row), u.numRows = TABLE_MAX_ROWS →
      executeInsertStatement r u = some (ExecuteResult.EXECUTE_TABLE_FULL, u)) := by
  have hfull : ∀ (u : Table) (r : Row), u.numRows = TABLE_MAX_ROWS →
      executeInsertStatement r u = some (ExecuteResult.EXECUTE_TABLE_FULL, u) := by
    intro u r hu
    simp [executeInsertStatement, hu]
  refine ⟨⟨sessionTable junks rs, insertAll_session junks rs (le_of_eq hlen), hlen, ?_⟩, hfull⟩
  intro r
  exact hfull (sessionTable junks rs) r hlen

theorem claim_C5_capacity_witness :
    (mkRows TABLE_MAX_ROWS).length = TABLE_MAX_ROWS ∧
    ((∃ t, insertAll (openDatabase [] zeroJunks) (mkRows TABLE_MAX_ROWS) = some t ∧
      t.numRows = TABLE_MAX_ROWS ∧
      ∀ r, executeInsertStatement r t = some (ExecuteResult.EXECUTE_TABLE_FULL, t)) ∧
    (∀ (u : Table) (r : Row), u.numRows = TABLE_MAX_ROWS →
      executeInsertStatement r u = some (ExecuteResult.EXECUTE_TABLE_FULL, u))) :=
  ⟨mkRows_length TABLE_MAX_ROWS,
    claim_C5_capacity zeroJunks (mkRows TABLE_MAX_ROWS) (mkRows_length TABLE_MAX_ROWS)⟩

/-- C6: codec round-trip. For every row whose fields satisfy the struct Row
type invariant (id a uint32_t value, username and email their full
fixed-width 33- and 256-byte arrays — in particular any NUL-terminated
strings of at most 32 and 255 bytes stored in them),
deserializeRow (serializeRow r) = r: encode writes id as 4 raw bytes then
the fixed-width username and email fields, decode reads the same fixed
widths at the same offsets. -/
theorem claim_C6_codec_roundtrip (r : Row) (h : wfRow r) :
    deserializeRow (serializeRow r) = r :=
  deserializeRow_serializeRow r h

theorem mkRow_wf (i : Nat) (h : i < 4294967296) : wfRow (mkRow i) :=
  ⟨h, by simp [mkRow], by simp [mkRow]⟩

theorem claim_C6_codec_roundtrip_witness :
    wfRow (mkRow 7) ∧ deserializeRow (serializeRow (mkRow 7)) = mkRow 7 :=
  ⟨mkRow_wf 7 (by norm_num), claim_C6_codec_roundtrip (mkRow 7) (mkRow_wf 7 (by norm_num))⟩

/-- C7: rowSlot addressing. row_address is injective, satisfies
page * ROWS_PER_PAGE + offset / ROW_SIZE = i for every row index i, and with
ROW_SIZE = 293 and ROWS_PER_PAGE = 13 maps row index 13 to page 1,
offset 0. -/
theorem claim_C7_addressing :
    (∀ i, (rowAddress i).1 * ROWS_PER_PAGE + (rowAddress i).2 / ROW_SIZE = i) ∧
    Function.Injective rowAddress ∧
    rowAddress 13 = (1, 0) := by
  have hid : ∀ i, (rowAddress i).1 * ROWS_PER_PAGE + (rowAddress i).2 / ROW_SIZE = i := by
    intro i
    simp only [rowAddress, rows_per_page_eq, row_size_eq]
    rw [Nat.mul_div_cancel _ (by norm_num : (0 : Nat) < 293)]
    omega
  refine ⟨hid, ?_, by decide⟩
  intro i j hij
  have h1 := hid i
  have h2 := hid j
  rw [hij] at h1
  exact h1.symm.trans h2

theorem claim_C7_addressing_witness :
    ((rowAddress 5).1 * ROWS_PER_PAGE + (rowAddress 5).2 / ROW_SIZE = 5) ∧
    (7 : Nat) = 7 ∧
    rowAddress 13 = (1, 0) :=
  ⟨claim_C7_addressing.1 5, claim_C7_addressing.2.1 (rfl : rowAddress 7 = rowAddress 7),
    claim_C7_addressing.2.2⟩

/-- C8: same-session order preservation. For every sequence of at most
TABLE_MAX_ROWS well-formed rows inserted into a store opened on an empty
file (with allocator buffers of PAGE_SIZE bytes), every insert succeeds and
executeSelectStatement then scans back exactly the inserted rows,
byte-for-byte equal, in insertion order, leaving the table unchanged. -/
theorem claim_C8_order_preservation (junks : Nat → List Nat) (rs : List Row)
    (hj : wfJunks junks) (hwf : wfRows rs) (hlen : rs.length ≤ TABLE_MAX_ROWS) :
    ∃ t, insertAll (openDatabase [] junks) rs = some t ∧
      executeSelectStatement t = some (ExecuteResult.EXECUTE_SUCCESS, rs, t) :=
  ⟨sessionTable junks rs, insertAll_session junks rs hlen,
    select_session junks rs hj hwf hlen⟩

theorem claim_C8_order_preservation_witness :
    wfJunks zeroJunks ∧ wfRows (mkRows 3) ∧ (mkRows 3).length ≤ TABLE_MAX_ROWS ∧
    (∃ t, insertAll (openDatabase [] zeroJunks) (mkRows 3) = some t ∧
      executeSelectStatement t = some (ExecuteResult.EXECUTE_SUCCESS, mkRows 3, t)) :=
  ⟨zeroJunks_wf, mkRows_wf 3 (by norm_num),
    by rw [mkRows_length, table_max_rows_eq]; omega,
    claim_C8_order_preservation zeroJunks (mkRows 3) zeroJunks_wf
      (mkRows_wf 3 (by norm_num)) (by rw [mkRows_length, table_max_rows_eq]; omega)⟩

/-- C9: insert frame property. For every table state with numRows below
capacity whose target page is resident as a PAGE_SIZE buffer pg, a
successful insert of a well-formed row writes exactly the ROW_SIZE bytes at
row_address(numRows) inside that page and increments numRows by one: every
other page slot is untouched, every byte of the target page outside the
written slot keeps its value, and every previously inserted row index still
scans to the same row value. -/
theorem claim_C9_insert_frame (t : Table) (r : Row) (pg : List Nat)
    (hlen : t.numRows < TABLE_MAX_ROWS)
    (hpages : t.pager.pages.length = TABLE_MAX_PAGES)
    (hres : t.pager.pages.getD (t.numRows / ROWS_PER_PAGE) none = some pg)
    (hpg : pg.length = PAGE_SIZE) (hr : wfRow r) :
    insertFrame t r pg :=
  executeInsert_frame t r pg hlen hpages hres hpg hr

theorem frameTable_res :
    frameTable.pager.pages.getD (frameTable.numRows / ROWS_PER_PAGE) none =
      some (List.replicate PAGE_SIZE 0) := by
  have h0 : frameTable.numRows / ROWS_PER_PAGE = 0 := rfl
  rw [h0]
  show ((List.replicate TABLE_MAX_PAGES none).set 0
    (some (List.replicate PAGE_SIZE 0))).getD 0 none = some (List.replicate PAGE_SIZE 0)
  rw [List.getD_eq_getElem?_getD, List.getElem?_set_self (by simp [TABLE_MAX_PAGES])]
  rfl

theorem claim_C9_insert_frame_witness :
    frameTable.numRows < TABLE_MAX_ROWS ∧
    frameTable.pager.pages.length = TABLE_MAX_PAGES ∧
    frameTable.pager.pages.getD (frameTable.numRows / ROWS_PER_PAGE) none =
      some (List.replicate PAGE_SIZE 0) ∧
    (List.replicate PAGE_SIZE 0).length = PAGE_SIZE ∧
    wfRow (mkRow 1) ∧
    insertFrame frameTable (mkRow 1) (List.replicate PAGE_SIZE 0) :=
  ⟨by decide, by simp [frameTable, TABLE_MAX_PAGES], frameTable_res,
    by simp, mkRow_wf 1 (by norm_num),
    claim_C9_insert_frame frameTable (mkRow 1) (List.replicate PAGE_SIZE 0)
      (by decide) (by simp [frameTable, TABLE_MAX_PAGES]) frameTable_res
      (by simp) (mkRow_wf 1 (by norm_num))⟩

/-- C10: in-bounds page access during normal operation. Under the invariant
numRows ≤ TABLE_MAX_ROWS, every page number rowSlot hands to getPage —
row index / ROWS_PER_PAGE for a scanned row index below numRows, or for the
insert target numRows itself when numRows < TABLE_MAX_ROWS — is strictly
below TABLE_MAX_PAGES, so the pages-array access is in bounds and getPage's
fatal branch (pageNum > TABLE_MAX_PAGES) is not taken on these paths. -/
theorem claim_C10_inbounds_pages (numRows : Nat) (h : numRows ≤ TABLE_MAX_ROWS) :
    (∀ i, i < numRows →
      (rowAddress i).1 < TABLE_MAX_PAGES ∧ getPageFatal (rowAddress i).1 = false) ∧
    (numRows < TABLE_MAX_ROWS →
      (rowAddress numRows).1 < TABLE_MAX_PAGES ∧
        getPageFatal (rowAddress numRows).1 = false) := by
  have hpage : ∀ m, m < TABLE_MAX_ROWS →
      (rowAddress m).1 < TABLE_MAX_PAGES ∧ getPageFatal (rowAddress m).1 = false := by
    intro m hm
    have h1 : (rowAddress m).1 < TABLE_MAX_PAGES := by
      simp only [rowAddress, rows_per_page_eq, table_max_rows_eq, TABLE_MAX_PAGES] at *
      omega
    refine ⟨h1, getPageFatal_false _ (by omega)⟩
  exact ⟨fun i hi => hpage i (by omega), fun hlt => hpage numRows hlt⟩

theorem claim_C10_inbounds_pages_witness :
    TABLE_MAX_ROWS ≤ TABLE_MAX_ROWS ∧
    ((∀ i, i < TABLE_MAX_ROWS →
      (rowAddress i).1 < TABLE_MAX_PAGES ∧ getPageFatal (rowAddress i).1 = false) ∧
    (TABLE_MAX_ROWS < TABLE_MAX_ROWS →
      (rowAddress TABLE_MAX_ROWS).1 < TABLE_MAX_PAGES ∧
        getPageFatal (rowAddress TABLE_MAX_ROWS).1 = false)) :=
  ⟨le_refl TABLE_MAX_ROWS, claim_C10_inbounds_pages TABLE_MAX_ROWS (le_refl TABLE_MAX_ROWS)⟩
